import Mathlib

/-!
Verification of `zmqhelpers.py`: a fan-out message proxy (`ZMQProxy.run`),
an object codec (`send_zipped_pickle` / `recv_zipped_pickle`) and a numpy
array codec (`send_array` / `recv_array`).

Frames are modelled as lists of byte values (`List Nat`).  The proxy's
interaction with its two sockets is modelled as an event trace: each
iteration of the Python control loop produces a `recv` event for the
inbound socket followed by the events of the sends it performs, and the
termination branch appends the two `close` events in source order
(receiver first, then ventilator).  Send failures (zmq raising an error,
which `run` does not catch and therefore propagates to its caller) are
modelled by an oracle `ok : Nat → Bool` giving the success of the n-th
send attempt; a failed send produces a `sendErr` event, ends the trace at
once and makes the run surface a `TransportError`.
-/

/-- A byte string, as a list of byte values. -/
abbrev ByteStr := List Nat

/-- ASCII bytes of a string (all strings in this development are ASCII,
so this coincides with the UTF-8 encoding). -/
def asciiBytes (s : String) : ByteStr := s.data.map Char.toNat

/-- `TERMINATE = b'TERMINATE'` — the sentinel frame. -/
def TERMINATE : ByteStr := asciiBytes "TERMINATE"

/-- `EnableTermination.check_termination`: `s == TERMINATE`. -/
def check_termination (s : ByteStr) : Bool := s = TERMINATE

/-- Configuration stored by `ZMQProxy.__init__` (it stores its arguments
unchanged and performs no validation). -/
structure ZMQProxy where
  workers : Int
  sendPort : Int
  recvPort : Int
  host : String

/-- `ZMQProxy.__init__` with the source's default ports and host. -/
def ZMQProxy.init (workers : Int) : ZMQProxy :=
  { workers := workers, sendPort := 5558, recvPort := 5557, host := "127.0.0.1" }

/-- Events observable at the proxy's two endpoints. -/
inductive Ev where
  | recv (f : ByteStr)
  | send (f : ByteStr)
  | sendErr (f : ByteStr)
  | closeRecv
  | closeSend
  deriving DecidableEq, Repr

/-- The error `run` surfaces when a socket operation fails. -/
inductive TransportError where
  | transport
  deriving DecidableEq, Repr

/-- The `for i in range(self.workers): ventilator.send(msg)` loop:
`j` sends left, `n` is the index of the next send attempt.  Returns the
events produced, the next send index, and `none` on success or
`some TransportError` if a send raised. -/
def sentinelLoop (ok : Nat → Bool) (msg : ByteStr) :
    Nat → Nat → List Ev × Nat × Option TransportError
  | 0, n => ([], n, none)
  | j + 1, n =>
    if ok n then
      let r := sentinelLoop ok msg j (n + 1)
      (Ev.send msg :: r.1, r.2)
    else ([Ev.sendErr msg], n + 1, some TransportError.transport)

/-- The body of `ZMQProxy.run`'s `while True` loop on a finite inbound
frame sequence, threading the send-attempt counter `n`.  An exhausted
inbound list models the loop blocked in `receiver.recv()` with no
further events.  Returns the event trace and `some TransportError`
when a send raised (the exception `run` does not catch). -/
def runAux (workers : Int) (ok : Nat → Bool) :
    List ByteStr → Nat → List Ev × Option TransportError
  | [], _ => ([], none)
  | msg :: rest, n =>
    if check_termination msg then
      let r := sentinelLoop ok msg workers.toNat n
      match r.2.2 with
      | none => (Ev.recv msg :: (r.1 ++ [Ev.closeRecv, Ev.closeSend]), none)
      | some e => (Ev.recv msg :: r.1, some e)
    else
      if ok n then
        let r := runAux workers ok rest (n + 1)
        (Ev.recv msg :: Ev.send msg :: r.1, r.2)
      else (Ev.recv msg :: [Ev.sendErr msg], some TransportError.transport)

/-- `ZMQProxy.run` on a finite inbound sequence. -/
def ZMQProxy.run (p : ZMQProxy) (ok : Nat → Bool) (inbound : List ByteStr) :
    List Ev × Option TransportError :=
  runAux p.workers ok inbound 0

/-- The frames successfully pushed to the outbound endpoint, in order. -/
def outFrames (es : List Ev) : List ByteStr :=
  es.filterMap fun e =>
    match e with
    | Ev.send f => some f
    | _ => none

@[simp] theorem outFrames_nil : outFrames [] = [] := rfl

@[simp] theorem outFrames_cons_recv (f : ByteStr) (es : List Ev) :
    outFrames (Ev.recv f :: es) = outFrames es := rfl

@[simp] theorem outFrames_cons_send (f : ByteStr) (es : List Ev) :
    outFrames (Ev.send f :: es) = f :: outFrames es := rfl

@[simp] theorem outFrames_cons_sendErr (f : ByteStr) (es : List Ev) :
    outFrames (Ev.sendErr f :: es) = outFrames es := rfl

@[simp] theorem outFrames_cons_closeRecv (es : List Ev) :
    outFrames (Ev.closeRecv :: es) = outFrames es := rfl

@[simp] theorem outFrames_cons_closeSend (es : List Ev) :
    outFrames (Ev.closeSend :: es) = outFrames es := rfl

theorem outFrames_append (es fs : List Ev) :
    outFrames (es ++ fs) = outFrames es ++ outFrames fs := by
  simp [outFrames, List.filterMap_append]

/-- With an always-succeeding oracle the sentinel loop pushes exactly
`j` copies of `msg`. -/
theorem sentinelLoop_ok (msg : ByteStr) (j n : Nat) :
    sentinelLoop (fun _ => true) msg j n =
      (List.replicate j (Ev.send msg), n + j, none) := by
  induction j generalizing n with
  | zero => simp [sentinelLoop]
  | succ j ih =>
    simp [sentinelLoop, ih, List.replicate_succ]
    omega

/-- On the sentinel, `runAux` (with succeeding sends) replicates the
sentinel `workers.toNat` times and closes both endpoints. -/
theorem runAux_sentinel (w : Int) (rest : List ByteStr) (n : Nat) :
    runAux w (fun _ => true) (TERMINATE :: rest) n =
      (Ev.recv TERMINATE ::
        (List.replicate w.toNat (Ev.send TERMINATE) ++
          [Ev.closeRecv, Ev.closeSend]), none) := by
  simp [runAux, check_termination, sentinelLoop_ok]

/-- A non-sentinel frame is forwarded and the loop continues. -/
theorem runAux_data (w : Int) (ok : Nat → Bool) (msg : ByteStr)
    (rest : List ByteStr) (n : Nat) (hmsg : msg ≠ TERMINATE) (hok : ok n = true) :
    runAux w ok (msg :: rest) n =
      (Ev.recv msg :: Ev.send msg :: (runAux w ok rest (n + 1)).1,
        (runAux w ok rest (n + 1)).2) := by
  simp [runAux, check_termination, hmsg, hok]

/-- Per-iteration events of the Running state: each non-sentinel frame is
received and then forwarded. -/
def fwdTrace : List ByteStr → List Ev
  | [] => []
  | f :: fs => Ev.recv f :: Ev.send f :: fwdTrace fs

@[simp] theorem fwdTrace_nil : fwdTrace [] = [] := rfl

@[simp] theorem fwdTrace_cons (f : ByteStr) (fs : List ByteStr) :
    fwdTrace (f :: fs) = Ev.recv f :: Ev.send f :: fwdTrace fs := rfl

@[simp] theorem outFrames_fwdTrace (fs : List ByteStr) :
    outFrames (fwdTrace fs) = fs := by
  induction fs with
  | nil => rfl
  | cons f fs ih => simp [ih]

@[simp] theorem outFrames_replicate_send (j : Nat) (f : ByteStr) :
    outFrames (List.replicate j (Ev.send f)) = List.replicate j f := by
  induction j with
  | zero => rfl
  | succ j ih => simp [List.replicate_succ, ih]

/-- A run on a sentinel-free prefix forwards each frame and continues. -/
theorem runAux_forward_block (w : Int) (pre rest : List ByteStr) (n : Nat)
    (h : ∀ f ∈ pre, f ≠ TERMINATE) :
    runAux w (fun _ => true) (pre ++ rest) n =
      (fwdTrace pre ++ (runAux w (fun _ => true) rest (n + pre.length)).1,
        (runAux w (fun _ => true) rest (n + pre.length)).2) := by
  induction pre generalizing n with
  | nil => simp
  | cons f fs ih =>
    have hf : f ≠ TERMINATE := h f (by simp)
    have harith : n + 1 + fs.length = n + (fs.length + 1) := by omega
    rw [List.cons_append, runAux_data w _ f (fs ++ rest) n hf rfl,
      ih (n + 1) (fun g hg => h g (by simp [hg])), harith]
    simp

/-- C1: For every worker count `k`, when the proxy's control loop receives
the sentinel frame (after any sentinel-free prefix), it pushes the sentinel
to the outbound endpoint exactly `k` times with no intervening reads, then
closes both endpoints (receiver first, then ventilator) and exits the loop
with no further reads or writes and no data frame after the first sentinel
push. -/
theorem C1_sentinel_fanout (k : Nat) (pre rest : List ByteStr)
    (h : ∀ f ∈ pre, f ≠ TERMINATE) :
    (ZMQProxy.init k).run (fun _ => true) (pre ++ TERMINATE :: rest) =
      (fwdTrace pre ++ Ev.recv TERMINATE ::
        (List.replicate k (Ev.send TERMINATE) ++ [Ev.closeRecv, Ev.closeSend]),
        none) := by
  show runAux (k : Int) (fun _ => true) (pre ++ TERMINATE :: rest) 0 = _
  rw [runAux_forward_block (k : Int) pre (TERMINATE :: rest) 0 h,
    runAux_sentinel (k : Int) rest (0 + pre.length)]
  simp

theorem C1_sentinel_fanout_witness :
    (ZMQProxy.init 2).run (fun _ => true) ([[1], [2]] ++ TERMINATE :: []) =
      (fwdTrace [[1], [2]] ++ Ev.recv TERMINATE ::
        (List.replicate 2 (Ev.send TERMINATE) ++ [Ev.closeRecv, Ev.closeSend]),
        none) :=
  C1_sentinel_fanout 2 [[1], [2]] [] (by decide)

/-- C2: For an inbound sequence `[a, b, c, SENTINEL]` with `a, b, c` not
equal to the sentinel, the outbound frame sequence is exactly `[a, b, c]`
in order and unmodified, followed by `k` copies of the sentinel. -/
theorem C2_order_preservation (k : Nat) (a b c : ByteStr)
    (ha : a ≠ TERMINATE) (hb : b ≠ TERMINATE) (hc : c ≠ TERMINATE) :
    outFrames ((ZMQProxy.init k).run (fun _ => true) [a, b, c, TERMINATE]).1 =
      [a, b, c] ++ List.replicate k TERMINATE := by
  have h : ∀ f ∈ [a, b, c], f ≠ TERMINATE := by
    intro f hf
    simp only [List.mem_cons, List.not_mem_nil, or_false] at hf
    rcases hf with rfl | rfl | rfl <;> assumption
  have := runAux_forward_block (k : Int) [a, b, c] (TERMINATE :: []) 0 h
  show outFrames (runAux (k : Int) (fun _ => true) ([a, b, c] ++ [TERMINATE]) 0).1 = _
  rw [this, runAux_sentinel (k : Int) [] (0 + [a, b, c].length)]
  simp [outFrames_append]

theorem C2_order_preservation_witness :
    outFrames ((ZMQProxy.init 3).run (fun _ => true)
        [[10], [20], [30], TERMINATE]).1 =
      [[10], [20], [30]] ++ List.replicate 3 TERMINATE :=
  C2_order_preservation 3 [10] [20] [30] (by decide) (by decide) (by decide)

/-- C9: The constructor stores any integer worker count without
validation; for a worker count ≤ 0, upon receiving the sentinel the proxy
pushes zero sentinel frames, still closes both endpoints, and exits its
loop normally. -/
theorem C9_nonpositive_workers (w : Int) (rest : List ByteStr) (hw : w ≤ 0) :
    (ZMQProxy.init w).workers = w ∧
    (ZMQProxy.init w).run (fun _ => true) (TERMINATE :: rest) =
      ([Ev.recv TERMINATE, Ev.closeRecv, Ev.closeSend], none) := by
  refine ⟨rfl, ?_⟩
  show runAux w (fun _ => true) (TERMINATE :: rest) 0 = _
  rw [runAux_sentinel w rest 0]
  simp [Int.toNat_of_nonpos hw]

theorem C9_nonpositive_workers_witness :
    ((ZMQProxy.init (-3)).workers = (-3 : Int) ∧
      (ZMQProxy.init (-3)).run (fun _ => true) (TERMINATE :: [[7]]) =
        ([Ev.recv TERMINATE, Ev.closeRecv, Ev.closeSend], none)) ∧
    ((ZMQProxy.init 0).workers = (0 : Int) ∧
      (ZMQProxy.init 0).run (fun _ => true) (TERMINATE :: []) =
        ([Ev.recv TERMINATE, Ev.closeRecv, Ev.closeSend], none)) :=
  ⟨C9_nonpositive_workers (-3) [[7]] (by decide),
    C9_nonpositive_workers 0 [] (by decide)⟩

/-- Whether an event is a failed send. -/
def isSendErr : Ev → Bool
  | Ev.sendErr _ => true
  | _ => false

@[simp] theorem isSendErr_recv (f : ByteStr) : isSendErr (Ev.recv f) = false := rfl

@[simp] theorem isSendErr_send (f : ByteStr) : isSendErr (Ev.send f) = false := rfl

@[simp] theorem isSendErr_sendErr (f : ByteStr) : isSendErr (Ev.sendErr f) = true := rfl

@[simp] theorem isSendErr_closeRecv : isSendErr Ev.closeRecv = false := rfl

@[simp] theorem isSendErr_closeSend : isSendErr Ev.closeSend = false := rfl

/-- In the sentinel loop, a failed send is the last event and the only
failed one; with no failure no `sendErr` event occurs. -/
theorem sentinelLoop_err_spec (ok : Nat → Bool) (msg : ByteStr) (j n : Nat) :
    ((sentinelLoop ok msg j n).2.2 = some TransportError.transport →
      ∃ es, (sentinelLoop ok msg j n).1 = es ++ [Ev.sendErr msg] ∧
        ∀ e ∈ es, isSendErr e = false) ∧
    ((sentinelLoop ok msg j n).2.2 = none →
      ∀ e ∈ (sentinelLoop ok msg j n).1, isSendErr e = false) := by
  induction j generalizing n with
  | zero => simp [sentinelLoop]
  | succ j ih =>
    by_cases hok : ok n
    · have h1 := (ih (n + 1)).1
      have h2 := (ih (n + 1)).2
      simp only [sentinelLoop, hok, if_true]
      constructor
      · intro herr
        obtain ⟨es, hes, hall⟩ := h1 herr
        exact ⟨Ev.send msg :: es, by simp [hes],
          (List.forall_mem_cons).2 ⟨rfl, hall⟩⟩
      · intro hnone
        exact (List.forall_mem_cons).2 ⟨rfl, h2 hnone⟩
    · simp [sentinelLoop, hok]

theorem runAux_term_none (w : Int) (ok : Nat → Bool) (msg : ByteStr)
    (rest : List ByteStr) (n : Nat) (hc : check_termination msg = true)
    (hr : (sentinelLoop ok msg w.toNat n).2.2 = none) :
    runAux w ok (msg :: rest) n =
      (Ev.recv msg :: ((sentinelLoop ok msg w.toNat n).1 ++
        [Ev.closeRecv, Ev.closeSend]), none) := by
  simp [runAux, hc, hr]

theorem runAux_term_some (w : Int) (ok : Nat → Bool) (msg : ByteStr)
    (rest : List ByteStr) (n : Nat) (e : TransportError)
    (hc : check_termination msg = true)
    (hr : (sentinelLoop ok msg w.toNat n).2.2 = some e) :
    runAux w ok (msg :: rest) n =
      (Ev.recv msg :: (sentinelLoop ok msg w.toNat n).1, some e) := by
  simp [runAux, hc, hr]

theorem runAux_send_fail (w : Int) (ok : Nat → Bool) (msg : ByteStr)
    (rest : List ByteStr) (n : Nat) (hc : check_termination msg = false)
    (hok : ok n = false) :
    runAux w ok (msg :: rest) n =
      (Ev.recv msg :: [Ev.sendErr msg], some TransportError.transport) := by
  simp [runAux, hc, hok]

/-- In any run, a `TransportError` is surfaced exactly by a failed send,
which is then the final event of the trace (no retry, no further reads or
writes); a run without the error contains no failed send. -/
theorem runAux_err_spec (w : Int) (ok : Nat → Bool) (inbound : List ByteStr) :
    ∀ n : Nat,
      (((runAux w ok inbound n).2 = some TransportError.transport →
        ∃ es f, (runAux w ok inbound n).1 = es ++ [Ev.sendErr f] ∧
          ∀ e ∈ es, isSendErr e = false) ∧
      ((runAux w ok inbound n).2 = none →
        ∀ e ∈ (runAux w ok inbound n).1, isSendErr e = false)) := by
  induction inbound with
  | nil => intro n; simp [runAux]
  | cons msg rest ih =>
    intro n
    by_cases hc : check_termination msg
    · cases hr : (sentinelLoop ok msg w.toNat n).2.2 with
      | none =>
        rw [runAux_term_none w ok msg rest n hc hr]
        have hall := (sentinelLoop_err_spec ok msg w.toNat n).2 hr
        constructor
        · intro herr; cases herr
        · intro _ e he
          simp only [List.mem_cons, List.mem_append, List.not_mem_nil,
            or_false] at he
          rcases he with rfl | he | rfl | rfl
          · rfl
          · exact hall e he
          · rfl
          · rfl
      | some err =>
        rw [runAux_term_some w ok msg rest n err hc hr]
        cases err
        have h1 := (sentinelLoop_err_spec ok msg w.toNat n).1 hr
        constructor
        · intro _
          obtain ⟨es, hes, hall⟩ := h1
          exact ⟨Ev.recv msg :: es, msg, by simp [hes],
            (List.forall_mem_cons).2 ⟨rfl, hall⟩⟩
        · intro hnone; cases hnone
    · have hc' : check_termination msg = false := by simpa using hc
      by_cases hok : ok n
      · have hmsg : msg ≠ TERMINATE := by
          intro hmsg
          rw [hmsg] at hc'
          simp [check_termination] at hc'
        rw [runAux_data w ok msg rest n hmsg hok]
        have h1 := (ih (n + 1)).1
        have h2 := (ih (n + 1)).2
        constructor
        · intro herr
          obtain ⟨es, f, hes, hall⟩ := h1 herr
          exact ⟨Ev.recv msg :: Ev.send msg :: es, f, by simp [hes],
            (List.forall_mem_cons).2 ⟨rfl, (List.forall_mem_cons).2 ⟨rfl, hall⟩⟩⟩
        · intro hnone
          exact (List.forall_mem_cons).2 ⟨rfl,
            (List.forall_mem_cons).2 ⟨rfl, h2 hnone⟩⟩
      · rw [runAux_send_fail w ok msg rest n hc' (by simpa using hok)]
        constructor
        · intro _
          exact ⟨[Ev.recv msg], msg, rfl, by simp⟩
        · intro hnone; cases hnone

/-- C7: If pushing any frame (data or sentinel) fails during the control
loop, the proxy stops immediately — the failed send is the last event of
the trace, no send is retried, no further reads or writes occur — and a
`TransportError` is surfaced to the caller; a run that surfaces no error
contains no failed send. -/
theorem C7_transport_error_fatal (p : ZMQProxy) (ok : Nat → Bool)
    (inbound : List ByteStr) :
    (((p.run ok inbound).2 = some TransportError.transport →
      ∃ es f, (p.run ok inbound).1 = es ++ [Ev.sendErr f] ∧
        ∀ e ∈ es, isSendErr e = false) ∧
    ((p.run ok inbound).2 = none →
      ∀ e ∈ (p.run ok inbound).1, isSendErr e = false)) :=
  runAux_err_spec p.workers ok inbound 0

theorem C7_transport_error_fatal_witness :
    ∃ es f, ((ZMQProxy.init 1).run (fun _ => false) [[5]]).1 =
        es ++ [Ev.sendErr f] ∧ ∀ e ∈ es, isSendErr e = false :=
  (C7_transport_error_fatal (ZMQProxy.init 1) (fun _ => false) [[5]]).1 (by decide)

/-! ## Array codec (`send_array` / `recv_array`)

`send_array` sends a two-part message: the JSON rendering (as produced by
`json.dumps` on `dict(dtype=str(array.dtype), shape=array.shape)`, which
keeps insertion order and uses the default `", "` / `": "` separators) and
the array's raw bytes.  `recv_array` parses the JSON metadata, reinterprets
the raw bytes with `np.frombuffer` (which fails if the byte count is not a
multiple of the element width, and returns a read-only array because the
received message buffer is read-only) and reshapes (which fails if the
element count does not match the product of the shape).  The JSON layer is
modelled executably: a byte-level renderer and a byte-level parser. -/

/-- The numpy dtypes supported by the codec model. -/
inductive Dtype where
  | float32
  | float64
  | int8
  | int16
  | int32
  | int64
  | uint8
  | uint16
  | uint32
  | uint64
  deriving DecidableEq, Repr

/-- `str(array.dtype)` for each supported dtype. -/
def dtypeStr : Dtype → String
  | Dtype.float32 => "float32"
  | Dtype.float64 => "float64"
  | Dtype.int8 => "int8"
  | Dtype.int16 => "int16"
  | Dtype.int32 => "int32"
  | Dtype.int64 => "int64"
  | Dtype.uint8 => "uint8"
  | Dtype.uint16 => "uint16"
  | Dtype.uint32 => "uint32"
  | Dtype.uint64 => "uint64"

/-- Element byte width of each supported dtype. -/
def dtypeWidth : Dtype → Nat
  | Dtype.float32 => 4
  | Dtype.float64 => 8
  | Dtype.int8 => 1
  | Dtype.int16 => 2
  | Dtype.int32 => 4
  | Dtype.int64 => 8
  | Dtype.uint8 => 1
  | Dtype.uint16 => 2
  | Dtype.uint32 => 4
  | Dtype.uint64 => 8

/-- `np.dtype(name)` on the byte representation of a dtype name:
recognizes exactly the supported names. -/
def dtypeOfName (bs : ByteStr) : Option Dtype :=
  if bs = asciiBytes "float32" then some Dtype.float32
  else if bs = asciiBytes "float64" then some Dtype.float64
  else if bs = asciiBytes "int8" then some Dtype.int8
  else if bs = asciiBytes "int16" then some Dtype.int16
  else if bs = asciiBytes "int32" then some Dtype.int32
  else if bs = asciiBytes "int64" then some Dtype.int64
  else if bs = asciiBytes "uint8" then some Dtype.uint8
  else if bs = asciiBytes "uint16" then some Dtype.uint16
  else if bs = asciiBytes "uint32" then some Dtype.uint32
  else if bs = asciiBytes "uint64" then some Dtype.uint64
  else none

theorem dtypeWidth_pos (d : Dtype) : 0 < dtypeWidth d := by
  cases d <;> decide

theorem dtypeOfName_dtypeStr (d : Dtype) :
    dtypeOfName (asciiBytes (dtypeStr d)) = some d := by
  cases d <;> decide

theorem dtypeStr_no_quote (d : Dtype) :
    ∀ c ∈ asciiBytes (dtypeStr d), (c != 34) = true := by
  cases d <;> decide

/-- Product of the dimensions of a shape (`array.size` for that shape). -/
def listProd : List Nat → Nat
  | [] => 1
  | n :: ns => n * listProd ns

/-- Decimal rendering of a natural number, as digit bytes
(what `json.dumps` emits for an `int`). -/
def renderNat (n : Nat) : ByteStr :=
  if n = 0 then [48] else ((Nat.digits 10 n).map (fun d => d + 48)).reverse

/-- Rendering of the tail of a JSON array body: `", n"` for each item. -/
def renderTail : List Nat → ByteStr
  | [] => []
  | n :: ns => 44 :: 32 :: (renderNat n ++ renderTail ns)

/-- Rendering of a JSON array body (without the surrounding brackets),
with `json.dumps`'s default `", "` separator. -/
def renderItems : List Nat → ByteStr
  | [] => []
  | n :: ns => renderNat n ++ renderTail ns

/-- The metadata frame: UTF-8 bytes of
`json.dumps(dict(dtype=<name>, shape=<shape>))`. -/
def jsonBytes (name : ByteStr) (shape : List Nat) : ByteStr :=
  asciiBytes "\x7b\"dtype\": \"" ++ name ++ asciiBytes "\", \"shape\": [" ++
    renderItems shape ++ asciiBytes "]\x7d"

/-- Consume an expected literal from the front of the input. -/
def expectLit : ByteStr → ByteStr → Option ByteStr
  | [], s => some s
  | _ :: _, [] => none
  | p :: ps, c :: cs => if c = p then expectLit ps cs else none

/-- ASCII decimal digit test. -/
def isDigitB (c : Nat) : Bool := decide (48 ≤ c ∧ c ≤ 57)

/-- Parse a decimal number greedily from the front of the input. -/
def parseNum (s : ByteStr) : Option (Nat × ByteStr) :=
  let ds := s.takeWhile isDigitB
  if ds.isEmpty then none
  else
    some (Nat.ofDigits 10 ((ds.map (fun c => c - 48)).reverse), s.dropWhile isDigitB)

/-- Parse the remaining items of a JSON array body: either `]` ends it or
`", "` introduces the next number.  `fuel` bounds the recursion. -/
def parseTail : Nat → ByteStr → Option (List Nat × ByteStr)
  | 0, _ => none
  | _ + 1, [] => none
  | fuel + 1, c :: rest =>
    if c = 93 then some ([], rest)
    else if c = 44 then
      match rest with
      | [] => none
      | d :: rest2 =>
        if d = 32 then
          match parseNum rest2 with
          | none => none
          | some (n, r) =>
            match parseTail fuel r with
            | none => none
            | some (ns, r2) => some (n :: ns, r2)
        else none
    else none

/-- Parse a JSON array body up to and including the closing `]`. -/
def parseShape (fuel : Nat) (s : ByteStr) : Option (List Nat × ByteStr) :=
  match s with
  | [] => none
  | c :: rest =>
    if c = 93 then some ([], rest)
    else
      match parseNum s with
      | none => none
      | some (n, r) =>
        match parseTail fuel r with
        | none => none
        | some (ns, r2) => some (n :: ns, r2)

/-- Parse the metadata frame produced by `send_array`'s `send_json`:
a JSON map with exactly the keys `"dtype"` (a string) and `"shape"`
(an array of numbers).  Returns the dtype name bytes and the shape. -/
def parseMeta (s : ByteStr) : Option (ByteStr × List Nat) :=
  match expectLit (asciiBytes "\x7b\"dtype\": \"") s with
  | none => none
  | some s1 =>
    let name := s1.takeWhile (fun c => c != 34)
    let s2 := s1.dropWhile (fun c => c != 34)
    match expectLit (asciiBytes "\", \"shape\": [") s2 with
    | none => none
    | some s3 =>
      match parseShape s3.length s3 with
      | none => none
      | some (shape, s4) =>
        match expectLit (asciiBytes "\x7d") s4 with
        | none => none
        | some s5 => if s5.isEmpty then some (name, shape) else none

/-- `true` when the parser's greedy scan would stop at the front of `r`. -/
def headStops (p : Nat → Bool) : ByteStr → Bool
  | [] => true
  | c :: _ => !(p c)

theorem expectLit_append (p s : ByteStr) : expectLit p (p ++ s) = some s := by
  induction p with
  | nil => rfl
  | cons c cs ih => simp [expectLit, ih]

theorem takeWhile_append_split (p : Nat → Bool) (xs r : ByteStr)
    (hxs : ∀ c ∈ xs, p c = true) (hr : headStops p r = true) :
    (xs ++ r).takeWhile p = xs ∧ (xs ++ r).dropWhile p = r := by
  induction xs with
  | nil =>
    simp only [List.nil_append]
    cases r with
    | nil => simp
    | cons c cs =>
      have hc : p c = false := by
        have : (!(p c)) = true := hr
        simp only [Bool.not_eq_true'] at this
        exact this
      simp [List.takeWhile_cons, List.dropWhile_cons, hc]
  | cons x xs ih =>
    have hx : p x = true := hxs x (by simp)
    have h2 := ih (fun c hc => hxs c (by simp [hc]))
    simp [List.takeWhile_cons, List.dropWhile_cons, hx, h2.1, h2.2]

theorem renderNat_ne_nil (n : Nat) : renderNat n ≠ [] := by
  unfold renderNat
  split
  · simp
  · rename_i h
    simp only [ne_eq, List.reverse_eq_nil_iff, List.map_eq_nil_iff]
    exact Nat.digits_ne_nil_iff_ne_zero.2 h

theorem renderNat_digits (n : Nat) : ∀ c ∈ renderNat n, isDigitB c = true := by
  intro c hc
  unfold renderNat at hc
  split at hc
  · simp only [List.mem_singleton] at hc
    subst hc
    decide
  · simp only [List.mem_reverse, List.mem_map] at hc
    obtain ⟨d, hd, rfl⟩ := hc
    have hlt : d < 10 := Nat.digits_lt_base (by norm_num) hd
    simp only [isDigitB, decide_eq_true_eq]
    omega

theorem renderNat_val (n : Nat) :
    Nat.ofDigits 10 (((renderNat n).map (fun c => c - 48)).reverse) = n := by
  by_cases h : n = 0
  · subst h
    simp [renderNat, Nat.ofDigits]
  · unfold renderNat
    rw [if_neg h, List.map_reverse, List.reverse_reverse, List.map_map]
    have hcomp : ((fun c => c - 48) ∘ fun d => d + 48) = id := by
      funext d
      simp
    rw [hcomp, List.map_id, Nat.ofDigits_digits]

theorem parseNum_render (n : Nat) (r : ByteStr)
    (hr : headStops isDigitB r = true) :
    parseNum (renderNat n ++ r) = some (n, r) := by
  have hsplit :=
    takeWhile_append_split isDigitB (renderNat n) r (renderNat_digits n) hr
  unfold parseNum
  rw [hsplit.1, hsplit.2,
    if_neg (by simp [List.isEmpty_iff, renderNat_ne_nil n]), renderNat_val]

theorem headStops_tail_close (ns : List Nat) (rest : ByteStr) :
    headStops isDigitB (renderTail ns ++ 93 :: rest) = true := by
  cases ns with
  | nil => rfl
  | cons m ms => rfl

theorem parseTail_round (ns : List Nat) (rest : ByteStr) :
    ∀ fuel, ns.length < fuel →
      parseTail fuel (renderTail ns ++ 93 :: rest) = some (ns, rest) := by
  induction ns with
  | nil =>
    intro fuel hf
    cases fuel with
    | zero => omega
    | succ f => simp [renderTail, parseTail]
  | cons n ns ih =>
    intro fuel hf
    cases fuel with
    | zero => omega
    | succ f =>
      have hlen : ns.length < f := by
        simp only [List.length_cons] at hf
        omega
      show parseTail (f + 1)
          ((44 :: 32 :: (renderNat n ++ renderTail ns)) ++ 93 :: rest) = _
      simp only [List.cons_append, List.append_assoc]
      simp only [parseTail]
      rw [if_neg (by decide), if_pos trivial,
        parseNum_render n (renderTail ns ++ 93 :: rest)
          (headStops_tail_close ns rest)]
      simp [ih f hlen]

theorem renderTail_length (ns : List Nat) : ns.length ≤ (renderTail ns).length := by
  induction ns with
  | nil => simp [renderTail]
  | cons n ns ih =>
    have h1 : 1 ≤ (renderNat n).length :=
      List.length_pos.2 (renderNat_ne_nil n)
    simp only [renderTail, List.length_cons, List.length_append]
    omega

theorem renderItems_length (ns : List Nat) :
    ns.length ≤ (renderItems ns).length := by
  cases ns with
  | nil => simp [renderItems]
  | cons n ns =>
    have h1 : 1 ≤ (renderNat n).length :=
      List.length_pos.2 (renderNat_ne_nil n)
    have h2 := renderTail_length ns
    simp only [renderItems, List.length_cons, List.length_append]
    omega

theorem parseShape_round (shape : List Nat) (rest : ByteStr) (fuel : Nat)
    (hf : shape.length ≤ fuel) :
    parseShape fuel (renderItems shape ++ 93 :: rest) = some (shape, rest) := by
  cases shape with
  | nil => simp [renderItems, parseShape]
  | cons n ns =>
    have hlen : ns.length < fuel := by
      simp only [List.length_cons] at hf
      omega
    obtain ⟨a, l, ha⟩ : ∃ a l, renderNat n = a :: l := by
      cases h : renderNat n with
      | nil => exact absurd h (renderNat_ne_nil n)
      | cons a l => exact ⟨a, l, rfl⟩
    have hda : isDigitB a = true := renderNat_digits n a (by simp [ha])
    have ha93 : ¬ a = 93 := by
      intro h
      subst h
      simp [isDigitB] at hda
    have hshape : renderItems (n :: ns) ++ 93 :: rest =
        a :: (l ++ (renderTail ns ++ 93 :: rest)) := by
      simp [renderItems, ha, List.append_assoc]
    rw [hshape]
    simp only [parseShape]
    rw [if_neg ha93]
    have hback : a :: (l ++ (renderTail ns ++ 93 :: rest)) =
        renderNat n ++ (renderTail ns ++ 93 :: rest) := by
      simp [ha]
    rw [hback, parseNum_render n (renderTail ns ++ 93 :: rest)
        (headStops_tail_close ns rest)]
    simp [parseTail_round ns rest fuel hlen]

theorem parseMeta_jsonBytes (name : ByteStr) (shape : List Nat)
    (hname : ∀ c ∈ name, (c != 34) = true) :
    parseMeta (jsonBytes name shape) = some (name, shape) := by
  have hstop : headStops (fun c => c != 34)
      (asciiBytes "\", \"shape\": [" ++ (renderItems shape ++ [93, 125])) = true := by
    rfl
  have hsplit := takeWhile_append_split (fun c => c != 34) name
    (asciiBytes "\", \"shape\": [" ++ (renderItems shape ++ [93, 125]))
    hname hstop
  have hfuel : shape.length ≤ (renderItems shape ++ [93, 125]).length := by
    have := renderItems_length shape
    simp only [List.length_append]
    omega
  have hclose : renderItems shape ++ asciiBytes "]\x7d" =
      renderItems shape ++ [93, 125] := rfl
  have hps : parseShape (renderItems shape ++ [93, 125]).length
      (renderItems shape ++ [93, 125]) = some (shape, [125]) :=
    parseShape_round shape [125] _ hfuel
  unfold parseMeta jsonBytes
  simp only [List.append_assoc, hclose, expectLit_append, hsplit.1, hsplit.2, hps]
  rfl

/-- Codec-level failures (`recv_array` raises on malformed metadata, an
unknown dtype or a size mismatch between metadata and raw bytes). -/
inductive DecodeError where
  | malformedMeta
  | unknownDtype
  | sizeMismatch
  deriving DecidableEq, Repr

/-- A numpy array: dtype, shape, raw row-major bytes and the `writeable`
flag of `array.flags`. -/
structure NDArr where
  dtype : Dtype
  shape : List Nat
  data : ByteStr
  writeable : Bool
  deriving DecidableEq, Repr

/-- `send_array`: a two-part message — `send_json` of
`dict(dtype=str(array.dtype), shape=array.shape)` followed by the array's
raw bytes, sent as-is. -/
def send_array (a : NDArr) : ByteStr × ByteStr :=
  (jsonBytes (asciiBytes (dtypeStr a.dtype)) a.shape, a.data)

/-- `recv_array`: `recv_json` parses the metadata; `np.frombuffer` fails
unless the byte count is a multiple of the element width, and yields a
read-only array because `memoryview(message)` over received bytes is
read-only; `reshape` fails unless the element count equals the product of
the shape. -/
def recv_array (meta raw : ByteStr) : Except DecodeError NDArr :=
  match parseMeta meta with
  | none => Except.error DecodeError.malformedMeta
  | some (name, shape) =>
    match dtypeOfName name with
    | none => Except.error DecodeError.unknownDtype
    | some d =>
      if raw.length % dtypeWidth d ≠ 0 then Except.error DecodeError.sizeMismatch
      else if raw.length / dtypeWidth d ≠ listProd shape then
        Except.error DecodeError.sizeMismatch
      else Except.ok { dtype := d, shape := shape, data := raw, writeable := false }

/-- Error raised when writing to a read-only array. -/
inductive WriteError where
  | readOnly
  deriving DecidableEq, Repr

/-- Modelled numpy element assignment `arr[i] = v` (at the byte level):
writes when the array is writeable, raises when it is read-only. -/
def NDArr.setItem (a : NDArr) (i : Nat) (v : Nat) : Except WriteError NDArr :=
  if a.writeable then Except.ok { a with data := a.data.set i v }
  else Except.error WriteError.readOnly

/-- Decoding a well-formed encoded array message succeeds and returns the
raw bytes unchanged, as a read-only array. -/
theorem recv_array_jsonBytes (d : Dtype) (shape : List Nat) (raw : ByteStr)
    (h : raw.length = listProd shape * dtypeWidth d) :
    recv_array (jsonBytes (asciiBytes (dtypeStr d)) shape) raw =
      Except.ok (NDArr.mk d shape raw false) := by
  have hw : 0 < dtypeWidth d := dtypeWidth_pos d
  unfold recv_array
  simp only [parseMeta_jsonBytes (asciiBytes (dtypeStr d)) shape
    (dtypeStr_no_quote d), dtypeOfName_dtypeStr d]
  rw [if_neg (by simp [h, Nat.mul_mod_left]),
    if_neg (by simp [h, Nat.mul_div_cancel _ hw])]

/-- C3: For every supported dtype and every shape (including rank-1 length
0 and rank ≥ 3), decoding an encoded array — parsing the metadata,
reinterpreting the raw bytes and reshaping — recovers the dtype, the shape
and a byte-for-byte identical buffer. -/
theorem C3_array_roundtrip (a : NDArr)
    (h : a.data.length = listProd a.shape * dtypeWidth a.dtype) :
    recv_array (send_array a).1 (send_array a).2 =
      Except.ok (NDArr.mk a.dtype a.shape a.data false) :=
  recv_array_jsonBytes a.dtype a.shape a.data h

theorem C3_array_roundtrip_witness :
    recv_array (send_array (NDArr.mk Dtype.float32 [0] [] true)).1
      (send_array (NDArr.mk Dtype.float32 [0] [] true)).2 =
      Except.ok (NDArr.mk Dtype.float32 [0] [] false) ∧
    recv_array
      (send_array (NDArr.mk Dtype.int16 [2, 1, 3]
        [0, 1, 2, 3, 4, 5, 6, 7, 8, 9, 10, 11] true)).1
      (send_array (NDArr.mk Dtype.int16 [2, 1, 3]
        [0, 1, 2, 3, 4, 5, 6, 7, 8, 9, 10, 11] true)).2 =
      Except.ok (NDArr.mk Dtype.int16 [2, 1, 3]
        [0, 1, 2, 3, 4, 5, 6, 7, 8, 9, 10, 11] false) :=
  ⟨C3_array_roundtrip _ (by decide), C3_array_roundtrip _ (by decide)⟩

/-- C6: Decoding fails with a `DecodeError` (the size-mismatch case)
whenever the raw byte length differs from `product(shape) * width(dtype)`;
in particular for `shape=[2,3]`, `dtype="float32"` and 20 raw bytes. -/
theorem C6_decode_size_mismatch (d : Dtype) (shape : List Nat) (raw : ByteStr)
    (h : raw.length ≠ listProd shape * dtypeWidth d) :
    recv_array (jsonBytes (asciiBytes (dtypeStr d)) shape) raw =
      Except.error DecodeError.sizeMismatch := by
  have hw : 0 < dtypeWidth d := dtypeWidth_pos d
  unfold recv_array
  simp only [parseMeta_jsonBytes (asciiBytes (dtypeStr d)) shape
    (dtypeStr_no_quote d), dtypeOfName_dtypeStr d]
  by_cases hmod : raw.length % dtypeWidth d = 0
  · have hdiv : raw.length / dtypeWidth d ≠ listProd shape := by
      intro hq
      apply h
      rw [← hq, Nat.div_mul_cancel (Nat.dvd_of_mod_eq_zero hmod)]
    rw [if_neg (by simp [hmod]), if_pos (by simp [hdiv])]
  · rw [if_pos (by simp [hmod])]

theorem C6_decode_size_mismatch_witness :
    recv_array (jsonBytes (asciiBytes (dtypeStr Dtype.float32)) [2, 3])
        (List.replicate 20 0) =
      Except.error DecodeError.sizeMismatch :=
  C6_decode_size_mismatch Dtype.float32 [2, 3] (List.replicate 20 0) (by decide)

/-- C8: The encoded array message is a two-part frame: part 1 is the UTF-8
text of the JSON map with exactly the keys `"dtype"` (a string) and
`"shape"` (an array of integers), in that order — parseable back to the
dtype name and shape — and part 2 is the buffer's raw bytes, untransformed,
of length `product(shape) * width(dtype)`. -/
theorem C8_wire_format (a : NDArr)
    (h : a.data.length = listProd a.shape * dtypeWidth a.dtype) :
    (send_array a).1 =
      asciiBytes "\x7b\"dtype\": \"" ++ asciiBytes (dtypeStr a.dtype) ++
        asciiBytes "\", \"shape\": [" ++ renderItems a.shape ++
        asciiBytes "]\x7d" ∧
    parseMeta (send_array a).1 = some (asciiBytes (dtypeStr a.dtype), a.shape) ∧
    (send_array a).2 = a.data ∧
    (send_array a).2.length = listProd a.shape * dtypeWidth a.dtype := by
  refine ⟨rfl, ?_, rfl, h⟩
  exact parseMeta_jsonBytes (asciiBytes (dtypeStr a.dtype)) a.shape
    (dtypeStr_no_quote a.dtype)

theorem C8_wire_format_witness :
    (send_array (NDArr.mk Dtype.float64 [2] (List.replicate 16 7) true)).1 =
      asciiBytes "\x7b\"dtype\": \"" ++ asciiBytes (dtypeStr Dtype.float64) ++
        asciiBytes "\", \"shape\": [" ++ renderItems [2] ++
        asciiBytes "]\x7d" ∧
    parseMeta
      (send_array (NDArr.mk Dtype.float64 [2] (List.replicate 16 7) true)).1 =
      some (asciiBytes (dtypeStr Dtype.float64), [2]) ∧
    (send_array (NDArr.mk Dtype.float64 [2] (List.replicate 16 7) true)).2 =
      List.replicate 16 7 ∧
    (send_array
      (NDArr.mk Dtype.float64 [2] (List.replicate 16 7) true)).2.length =
      listProd [2] * dtypeWidth Dtype.float64 :=
  C8_wire_format _ (by decide)

/-- C10: A successfully decoded array is a read-only view: its
`writeable` flag is false and writing any element raises. -/
theorem C10_readonly_view (meta raw : ByteStr) (a : NDArr)
    (h : recv_array meta raw = Except.ok a) :
    a.writeable = false ∧
    ∀ i v, NDArr.setItem a i v = Except.error WriteError.readOnly := by
  have hw : a.writeable = false := by
    unfold recv_array at h
    split at h
    · cases h
    · split at h
      · cases h
      · split at h
        · cases h
        · split at h
          · cases h
          · injection h with h2
            rw [← h2]
  refine ⟨hw, fun i v => ?_⟩
  unfold NDArr.setItem
  rw [hw]
  simp

theorem C10_readonly_view_witness :
    (NDArr.mk Dtype.uint8 [1] [7] false).writeable = false ∧
    ∀ i v, NDArr.setItem (NDArr.mk Dtype.uint8 [1] [7] false) i v =
      Except.error WriteError.readOnly :=
  C10_readonly_view (jsonBytes (asciiBytes (dtypeStr Dtype.uint8)) [1]) [7] _
    (recv_array_jsonBytes Dtype.uint8 [1] [7] (by decide))

/-! ## Object codec (`send_zipped_pickle` / `recv_zipped_pickle`)

`send_zipped_pickle` is `socket.send(zlib.compress(pickle.dumps(obj)))`;
`recv_zipped_pickle` is `pickle.loads(zlib.decompress(socket.recv()))`.
`pickle` and `zlib` are external libraries; they are modelled here by
executable stand-ins that satisfy their documented contracts. The pickle
stand-in serializes a Python-value datatype (`PyVal`: None, bool, int,
str, list, dict) to a self-delimiting byte string with a proved inverse.
The zlib stand-in is a lossless wrapper in zlib's RFC 1950 format: the
first output byte is the CMF byte `0x78` (deflate, 32K window), which real
zlib emits for every input under the default settings used by
`zlib.compress` — the fact the sentinel-disjointness argument rests on. -/

/-- The values the modelled serializer can encode. -/
inductive PyVal where
  | pnone
  | pbool (b : Bool)
  | pint (i : Int)
  | pstr (s : String)
  | plist (xs : List PyVal)
  | pdict (es : List (String × PyVal))

/-- Self-delimiting encoding of a natural number: its base-255 digits
(each < 255) followed by the terminator byte 255. -/
def natEnc (n : Nat) : ByteStr := Nat.digits 255 n ++ [255]

/-- Decode a `natEnc`-encoded number from the front of the input. -/
def natDec (s : ByteStr) : Option (Nat × ByteStr) :=
  match s.dropWhile (fun c => decide (c < 255)) with
  | [] => none
  | t :: r =>
    if t = 255 then
      some (Nat.ofDigits 255 (s.takeWhile (fun c => decide (c < 255))), r)
    else none

/-- Sign byte then the magnitude's `natEnc`. -/
def intEnc (i : Int) : ByteStr :=
  match i with
  | Int.ofNat n => 0 :: natEnc n
  | Int.negSucc n => 1 :: natEnc n

/-- Decode an `intEnc`-encoded integer. -/
def intDec (s : ByteStr) : Option (Int × ByteStr) :=
  match s with
  | [] => none
  | t :: r =>
    match natDec r with
    | none => none
    | some (n, r2) =>
      if t = 0 then some (Int.ofNat n, r2)
      else if t = 1 then some (Int.negSucc n, r2)
      else none

/-- Each character as the `natEnc` of its code point. -/
def charsEnc : List Char → ByteStr
  | [] => []
  | c :: cs => natEnc c.toNat ++ charsEnc cs

/-- Decode `k` characters. -/
def charsDec : Nat → ByteStr → Option (List Char × ByteStr)
  | 0, s => some ([], s)
  | k + 1, s =>
    match natDec s with
    | none => none
    | some (n, r) =>
      match charsDec k r with
      | none => none
      | some (cs, r2) => some (Char.ofNat n :: cs, r2)

/-- Length-prefixed character sequence. -/
def strEnc (s : String) : ByteStr := natEnc s.data.length ++ charsEnc s.data

/-- Decode a `strEnc`-encoded string. -/
def strDec (s : ByteStr) : Option (String × ByteStr) :=
  match natDec s with
  | none => none
  | some (k, r) =>
    match charsDec k r with
    | none => none
    | some (cs, r2) => some (String.mk cs, r2)

mutual

/-- The pickle stand-in's serializer: a tag byte per node, then the
node's payload; sequences are length-prefixed. -/
def dumpsV : PyVal → ByteStr
  | PyVal.pnone => [0]
  | PyVal.pbool b => [1, if b then 1 else 0]
  | PyVal.pint i => 2 :: intEnc i
  | PyVal.pstr s => 3 :: strEnc s
  | PyVal.plist xs => 4 :: (natEnc xs.length ++ dumpsL xs)
  | PyVal.pdict es => 5 :: (natEnc es.length ++ dumpsD es)

def dumpsL : List PyVal → ByteStr
  | [] => []
  | v :: vs => dumpsV v ++ dumpsL vs

def dumpsD : List (String × PyVal) → ByteStr
  | [] => []
  | (k, v) :: es => strEnc k ++ (dumpsV v ++ dumpsD es)

end

mutual

/-- Node count of a value (at least 1), a lower bound for the fuel the
parser needs. -/
def nodesV : PyVal → Nat
  | PyVal.pnone => 1
  | PyVal.pbool _ => 1
  | PyVal.pint _ => 1
  | PyVal.pstr _ => 1
  | PyVal.plist xs => 1 + nodesL xs
  | PyVal.pdict es => 1 + nodesD es

def nodesL : List PyVal → Nat
  | [] => 0
  | v :: vs => nodesV v + nodesL vs

def nodesD : List (String × PyVal) → Nat
  | [] => 0
  | (_, v) :: es => nodesV v + nodesD es

end

mutual

/-- The pickle stand-in's parser; `fuel` decreases on each nested value. -/
def parseV : Nat → ByteStr → Option (PyVal × ByteStr)
  | 0, _ => none
  | _ + 1, [] => none
  | fuel + 1, t :: r =>
    if t = 0 then some (PyVal.pnone, r)
    else if t = 1 then
      match r with
      | [] => none
      | b :: r2 =>
        if b = 0 then some (PyVal.pbool false, r2)
        else if b = 1 then some (PyVal.pbool true, r2)
        else none
    else if t = 2 then
      match intDec r with
      | none => none
      | some (i, r2) => some (PyVal.pint i, r2)
    else if t = 3 then
      match strDec r with
      | none => none
      | some (s, r2) => some (PyVal.pstr s, r2)
    else if t = 4 then
      match natDec r with
      | none => none
      | some (k, r1) =>
        match parseL fuel k r1 with
        | none => none
        | some (xs, r2) => some (PyVal.plist xs, r2)
    else if t = 5 then
      match natDec r with
      | none => none
      | some (k, r1) =>
        match parseD fuel k r1 with
        | none => none
        | some (es, r2) => some (PyVal.pdict es, r2)
    else none
  termination_by fuel _ => (fuel, 0)

def parseL : Nat → Nat → ByteStr → Option (List PyVal × ByteStr)
  | _, 0, s => some ([], s)
  | fuel, k + 1, s =>
    match parseV fuel s with
    | none => none
    | some (v, r) =>
      match parseL fuel k r with
      | none => none
      | some (vs, r2) => some (v :: vs, r2)
  termination_by fuel k _ => (fuel, k + 1)

def parseD : Nat → Nat → ByteStr → Option (List (String × PyVal) × ByteStr)
  | _, 0, s => some ([], s)
  | fuel, k + 1, s =>
    match strDec s with
    | none => none
    | some (key, r0) =>
      match parseV fuel r0 with
      | none => none
      | some (v, r) =>
        match parseD fuel k r with
        | none => none
        | some (es, r2) => some ((key, v) :: es, r2)
  termination_by fuel k _ => (fuel, k + 1)

end

/-- `pickle.dumps` stand-in. -/
def pickle_dumps (v : PyVal) : ByteStr := dumpsV v

/-- `pickle.loads` stand-in: parse one value consuming the whole input. -/
def pickle_loads (s : ByteStr) : Option PyVal :=
  match parseV s.length s with
  | some (v, []) => some v
  | _ => none

/-- `zlib.compress` stand-in (contract model of the external library):
RFC 1950 wrapper — CMF byte `0x78`, FLG byte `0x9c` under the default
compression level — around a lossless (stored) body. -/
def zlib_compress (s : ByteStr) : ByteStr :=
  120 :: 156 :: (natEnc s.length ++ s)

/-- `zlib.decompress` stand-in: checks the RFC 1950 header and recovers
the stored body. -/
def zlib_decompress (m : ByteStr) : Option ByteStr :=
  match m with
  | 120 :: 156 :: r =>
    match natDec r with
    | none => none
    | some (k, r2) => if r2.length = k then some r2 else none
  | _ => none

/-- `send_zipped_pickle`: pickle the object, zip the pickle, send it. -/
def send_zipped_pickle (v : PyVal) : ByteStr :=
  zlib_compress (pickle_dumps v)

/-- `recv_zipped_pickle`: receive, decompress, unpickle. -/
def recv_zipped_pickle (m : ByteStr) : Option PyVal :=
  match zlib_decompress m with
  | none => none
  | some s => pickle_loads s

theorem natDec_natEnc (n : Nat) (r : ByteStr) :
    natDec (natEnc n ++ r) = some (n, r) := by
  have hds : ∀ c ∈ Nat.digits 255 n, (fun c => decide (c < 255)) c = true := by
    intro c hc
    simp only [decide_eq_true_eq]
    exact Nat.digits_lt_base (by norm_num) hc
  have hsplit := takeWhile_append_split (fun c => decide (c < 255))
    (Nat.digits 255 n) (255 :: r) hds rfl
  unfold natDec natEnc
  simp only [List.append_assoc, List.singleton_append, hsplit.1, hsplit.2]
  simp [Nat.ofDigits_digits]

theorem intDec_intEnc (i : Int) (r : ByteStr) :
    intDec (intEnc i ++ r) = some (i, r) := by
  cases i with
  | ofNat n => simp [intEnc, intDec, natDec_natEnc]
  | negSucc n => simp [intEnc, intDec, natDec_natEnc]

theorem charsDec_charsEnc (cs : List Char) (r : ByteStr) :
    charsDec cs.length (charsEnc cs ++ r) = some (cs, r) := by
  induction cs with
  | nil => simp [charsEnc, charsDec]
  | cons c cs ih =>
    simp only [charsEnc, List.length_cons, List.append_assoc]
    simp [charsDec, natDec_natEnc, ih, Char.ofNat_toNat]

theorem strDec_strEnc (s : String) (r : ByteStr) :
    strDec (strEnc s ++ r) = some (s, r) := by
  unfold strEnc strDec
  simp only [List.append_assoc, natDec_natEnc, charsDec_charsEnc]

theorem nodesV_pos (v : PyVal) : 1 ≤ nodesV v := by
  cases v <;> simp [nodesV]

mutual

theorem nodesV_le : ∀ v : PyVal, nodesV v ≤ (dumpsV v).length
  | PyVal.pnone => by simp [nodesV, dumpsV]
  | PyVal.pbool b => by simp [nodesV, dumpsV]
  | PyVal.pint i => by simp [nodesV, dumpsV]
  | PyVal.pstr s => by simp [nodesV, dumpsV]
  | PyVal.plist xs => by
    have h := nodesL_le xs
    simp only [nodesV, dumpsV, List.length_cons, List.length_append]
    omega
  | PyVal.pdict es => by
    have h := nodesD_le es
    simp only [nodesV, dumpsV, List.length_cons, List.length_append]
    omega

theorem nodesL_le : ∀ xs : List PyVal, nodesL xs ≤ (dumpsL xs).length
  | [] => by simp [nodesL, dumpsL]
  | v :: vs => by
    have h1 := nodesV_le v
    have h2 := nodesL_le vs
    simp only [nodesL, dumpsL, List.length_append]
    omega

theorem nodesD_le : ∀ es : List (String × PyVal), nodesD es ≤ (dumpsD es).length
  | [] => by simp [nodesD, dumpsD]
  | (k, v) :: es => by
    have h1 := nodesV_le v
    have h2 := nodesD_le es
    simp only [nodesD, dumpsD, List.length_append]
    omega

end

/-- The parser inverts the serializer given enough fuel (one unit per
node), with any trailing input preserved. -/
theorem parse_dumps_all : ∀ fuel : Nat,
    (∀ (v : PyVal) (r : ByteStr), nodesV v ≤ fuel →
      parseV fuel (dumpsV v ++ r) = some (v, r)) ∧
    (∀ (xs : List PyVal) (r : ByteStr), nodesL xs ≤ fuel →
      parseL fuel xs.length (dumpsL xs ++ r) = some (xs, r)) ∧
    (∀ (es : List (String × PyVal)) (r : ByteStr), nodesD es ≤ fuel →
      parseD fuel es.length (dumpsD es ++ r) = some (es, r)) := by
  intro fuel
  induction fuel with
  | zero =>
    refine ⟨?_, ?_, ?_⟩
    · intro v r hv
      exact absurd hv (by have := nodesV_pos v; omega)
    · intro xs r hx
      cases xs with
      | nil => simp [dumpsL, parseL.eq_def]
      | cons v vs =>
        exact absurd hx (by have := nodesV_pos v; simp only [nodesL]; omega)
    · intro es r he
      cases es with
      | nil => simp [dumpsD, parseD.eq_def]
      | cons e es2 =>
        obtain ⟨k, v⟩ := e
        exact absurd he (by have := nodesV_pos v; simp only [nodesD]; omega)
  | succ f ih =>
    obtain ⟨ihV, ihL, ihD⟩ := ih
    have hV : ∀ (v : PyVal) (r : ByteStr), nodesV v ≤ f + 1 →
        parseV (f + 1) (dumpsV v ++ r) = some (v, r) := by
      intro v r hv
      cases v with
      | pnone =>
        show parseV (f + 1) (0 :: r) = some (PyVal.pnone, r)
        rw [parseV.eq_def]
        simp
      | pbool b =>
        show parseV (f + 1) (1 :: (if b then 1 else 0) :: r) =
          some (PyVal.pbool b, r)
        rw [parseV.eq_def]
        cases b <;> simp
      | pint i =>
        show parseV (f + 1) (2 :: (intEnc i ++ r)) = some (PyVal.pint i, r)
        rw [parseV.eq_def]
        simp [intDec_intEnc]
      | pstr s =>
        show parseV (f + 1) (3 :: (strEnc s ++ r)) = some (PyVal.pstr s, r)
        rw [parseV.eq_def]
        simp [strDec_strEnc]
      | plist xs =>
        have hxs : nodesL xs ≤ f := by
          simp only [nodesV] at hv
          omega
        simp only [dumpsV, List.cons_append, List.append_assoc]
        rw [parseV.eq_def]
        simp [natDec_natEnc, ihL xs r hxs]
      | pdict es =>
        have hes : nodesD es ≤ f := by
          simp only [nodesV] at hv
          omega
        simp only [dumpsV, List.cons_append, List.append_assoc]
        rw [parseV.eq_def]
        simp [natDec_natEnc, ihD es r hes]
    refine ⟨hV, ?_, ?_⟩
    · intro xs
      induction xs with
      | nil =>
        intro r hx
        simp [dumpsL, parseL.eq_def]
      | cons v vs ihvs =>
        intro r hx
        have hv : nodesV v ≤ f + 1 := by
          simp only [nodesL] at hx
          omega
        have hvs : nodesL vs ≤ f + 1 := by
          simp only [nodesL] at hx
          omega
        simp only [dumpsL, List.append_assoc, List.length_cons]
        rw [parseL.eq_def]
        simp [hV v (dumpsL vs ++ r) hv, ihvs r hvs]
    · intro es
      induction es with
      | nil =>
        intro r he
        simp [dumpsD, parseD.eq_def]
      | cons e es2 ihes =>
        obtain ⟨k, v⟩ := e
        intro r he
        have hv : nodesV v ≤ f + 1 := by
          simp only [nodesD] at he
          omega
        have hes2 : nodesD es2 ≤ f + 1 := by
          simp only [nodesD] at he
          omega
        simp only [dumpsD, List.append_assoc, List.length_cons]
        rw [parseD.eq_def]
        simp [strDec_strEnc k (dumpsV v ++ (dumpsD es2 ++ r)),
          hV v (dumpsD es2 ++ r) hv, ihes r hes2]

theorem zlib_decompress_compress (s : ByteStr) :
    zlib_decompress (zlib_compress s) = some s := by
  unfold zlib_compress zlib_decompress
  simp [natDec_natEnc]

theorem pickle_loads_dumps (v : PyVal) :
    pickle_loads (pickle_dumps v) = some v := by
  have h := (parse_dumps_all (dumpsV v).length).1 v [] (nodesV_le v)
  rw [List.append_nil] at h
  unfold pickle_loads pickle_dumps
  rw [h]

/-- C4: For every value `v` encodable by the serializer, decoding the
encoding of `v` — decompressing, then deserializing, the
compress-of-serialize bytes — returns `v` itself. -/
theorem C4_object_roundtrip (v : PyVal) :
    recv_zipped_pickle (send_zipped_pickle v) = some v := by
  unfold recv_zipped_pickle send_zipped_pickle
  rw [zlib_decompress_compress]
  exact pickle_loads_dumps v

/-- C5: No encoded object frame equals the sentinel: the compressed
stream starts with the compressor's fixed header byte `0x78` while the
sentinel starts with `0x54` (`'T'`). -/
theorem C5_sentinel_disjoint (v : PyVal) :
    send_zipped_pickle v ≠ TERMINATE := by
  intro h
  have hT : TERMINATE = 84 :: asciiBytes "ERMINATE" := by decide
  rw [hT] at h
  unfold send_zipped_pickle zlib_compress at h
  injection h with h1 h2
  exact absurd h1 (by decide)
